import Mathlib

/-!
# The design-pattern demonstrations of `DesignPatternsCpp`

A shallow embedding of `Solid.cpp` (the open/closed-principle specification and filter engine,
the `Rectangle`/`Square` substitution example, the `Relationships` store) and of `Builder.cpp`
(the `Tag` language, `HtmlElement` and `HtmlBuilder`), with the properties proved about them.

Conventions of the embedding.

* A C++ call may have effects (it may fault on a bad pointer, it may touch state), so a virtual
  call `bool is_satisfied(T* item) const` is a function `H → m Bool` where `H` is the handle
  type `T*` and `m` the effect context. A side-effect-free predicate lives in `m = Id`;
  raw pointers into a memory live in `m = Option` (`none` is a fault on dereference);
  `m = StateM σ` exposes the order in which sub-calls run, and
  `m = StateT Memory (Except Failure)` runs a call on the memory of records as state.
* `vector<T*>` is `List H`; `push_back` is `List.concat`.
* `int` is 32-bit: products wrap around (`int_mul`).
* An output stream is the string written so far.
-/

namespace Solid

/-! ## Data model -/

/-- The source's `enum class Color { red, green, blue }`. -/
inductive Color where
  | red
  | green
  | blue
  deriving DecidableEq, Repr

/-- The source's `enum class Size { small, medium, large }`. -/
inductive Size where
  | small
  | medium
  | large
  deriving DecidableEq, Repr

/-- The source's `struct Product { string name; Color color; Size size; }`. -/
structure Product where
  name : String
  color : Color
  size : Size
  deriving DecidableEq, Repr

/-- A raw pointer `Product*`: the null pointer or the address of an object. -/
inductive Ptr where
  | null
  | addr (a : Nat)
  deriving DecidableEq, Repr

/-- The objects alive during a call, by address. -/
abbrev Memory := List Product

/-- Dereference `item->...`: faults (`none`) on the null pointer and on an address that holds
no object. -/
def Memory.load (mem : Memory) : Ptr → Option Product
  | Ptr.null => none
  | Ptr.addr a => mem.get? a

/-! ## Specifications -/

/-- The source's `template <typename T> struct Specification`: the one virtual method
`bool is_satisfied(T* item) const`. -/
structure Specification (m : Type → Type) (H : Type) where
  is_satisfied : H → m Bool

/-- The source's `AndSpecification<T>`: holds `first` and `second`;
`is_satisfied(item)` is `first.is_satisfied(item) && second.is_satisfied(item)` with the
built-in short-circuit `&&` on `bool`. -/
def AndSpecification {m : Type → Type} [Monad m] {H : Type}
    (first second : Specification m H) : Specification m H where
  is_satisfied item := do
    let b ← first.is_satisfied item
    if b then second.is_satisfied item else pure false

/-- The source's `Specification<T>::operator&&(second)`: `return { *this, second };`. -/
def Specification.operator_and {m : Type → Type} [Monad m] {H : Type}
    (self second : Specification m H) : Specification m H :=
  AndSpecification self second

/-- The source's `ColorSpecification`: `is_satisfied(item)` is `item->color == color`.
`deref` is the dereference `item->` of the handle type in use. -/
def ColorSpecification {m : Type → Type} [Monad m] {H : Type}
    (deref : H → m Product) (color : Color) : Specification m H where
  is_satisfied item := do
    let p ← deref item
    pure (decide (p.color = color))

/-- The source's `SizeSpecification`: `is_satisfied(item)` is `item->size == size`.
`deref` is the dereference `item->` of the handle type in use. -/
def SizeSpecification {m : Type → Type} [Monad m] {H : Type}
    (deref : H → m Product) (size : Size) : Specification m H where
  is_satisfied item := do
    let p ← deref item
    pure (decide (p.size = size))

/-! ## Filter -/

/-- The source's `BetterFilter::filter(items, spec)`:
`result` starts empty; for each `p` of `items` in order, `if (spec.is_satisfied(p))
result.push_back(p)`; `return result`. -/
def BetterFilter.filter {m : Type → Type} [Monad m] {H : Type}
    (items : List H) (spec : Specification m H) : m (List H) :=
  items.foldlM
    (fun result p => do
      let b ← spec.is_satisfied p
      if b then pure (result.concat p) else pure result)
    []

/-- The loop of `BetterFilter::filter`, started from an arbitrary `result`. -/
def BetterFilter.loop {m : Type → Type} [Monad m] {H : Type}
    (spec : Specification m H) (result : List H) (items : List H) : m (List H) :=
  items.foldlM
    (fun result p => do
      let b ← spec.is_satisfied p
      if b then pure (result.concat p) else pure result)
    result

/-- A specification whose `is_satisfied` returns true for every record. -/
def always_true {H : Type} : Specification Id H where
  is_satisfied _ := pure true

/-! ## The demonstration `open_closed_principle_demo` -/

/-- Local `Product apple{ "Apple", Color::green, Size::small }`. -/
def apple : Product := ⟨"Apple", Color.green, Size.small⟩

/-- Local `Product tree{ "Tree", Color::green, Size::large }`. -/
def tree : Product := ⟨"Tree", Color.green, Size.large⟩

/-- Local `Product house{ "House", Color::blue, Size::large }`. -/
def house : Product := ⟨"House", Color.blue, Size.large⟩

/-- The three locals of the demonstration, at addresses 0, 1 and 2. -/
def demo_memory : Memory := [apple, tree, house]

/-- The source's `const vector<Product*> all{ &apple, &tree, &house }`. -/
def all : List Ptr := [Ptr.addr 0, Ptr.addr 1, Ptr.addr 2]

/-- The print loops of the demonstration: `for (auto& x : things) cout << x->name << suffix`,
one output line per handle. -/
def print_names (mem : Memory) (things : List Ptr) (suffix : String) : Option (List String) :=
  things.mapM (fun x => do
    let p ← mem.load x
    pure (p.name ++ suffix))

/-- The source's `open_closed_principle_demo`, returning the lines written to `cout`:
`green_things = bf.filter(all, green)` is printed, then `spec = green && large` is built with
the operator and `bf.filter(all, spec)` is printed. -/
def open_closed_principle_demo : Option (List String) := do
  let green := ColorSpecification demo_memory.load Color.green
  let green_things ← BetterFilter.filter all green
  let out1 ← print_names demo_memory green_things " is green\n"
  let large := SizeSpecification demo_memory.load Size.large
  let spec := green.operator_and large
  let big_green_things ← BetterFilter.filter all spec
  let out2 ← print_names demo_memory big_green_things " is green and large\n"
  pure (out1 ++ out2)

/-! ## The specifications the source can build -/

/-- Handles that are the records themselves (a reference that always dereferences). -/
def by_value (item : Product) : Id Product := pure item

/-- The shapes of specification object the source defines a class for: the two leaf
predicates and the AND composite. There is no class for OR or for NOT. -/
inductive SpecTerm where
  | color (c : Color)
  | size (s : Size)
  | and (first second : SpecTerm)
  deriving Repr

/-- The specification object of a given shape, built with the constructors of the source. -/
def SpecTerm.build {m : Type → Type} [Monad m] {H : Type} (deref : H → m Product) :
    SpecTerm → Specification m H
  | SpecTerm.color c => ColorSpecification deref c
  | SpecTerm.size s => SizeSpecification deref s
  | SpecTerm.and first second => AndSpecification (first.build deref) (second.build deref)

/-! ## The closed-for-extension `ProductFilter` -/

/-- The source's `ProductFilter::by_color(items, color)`: for each `i` of `items` in order,
`if (i->color == color) result.push_back(i)`. -/
def ProductFilter.by_color {m : Type → Type} [Monad m] {H : Type}
    (deref : H → m Product) (items : List H) (color : Color) : m (List H) :=
  items.foldlM
    (fun result i => do
      let p ← deref i
      if p.color = color then pure (result.concat i) else pure result)
    []

/-- The source's `ProductFilter::by_size(items, size)`: for each `i` of `items` in order,
`if (i->size == size) result.push_back(i)`. -/
def ProductFilter.by_size {m : Type → Type} [Monad m] {H : Type}
    (deref : H → m Product) (items : List H) (size : Size) : m (List H) :=
  items.foldlM
    (fun result i => do
      let p ← deref i
      if p.size = size then pure (result.concat i) else pure result)
    []

/-- The source's `ProductFilter::by_size_and_color(items, size, color)`: for each `i` of `items`
in order, `if (i->size == size && i->color == color) result.push_back(i)`; the handle is
dereferenced for the size and, only when the size matches, once more for the color. -/
def ProductFilter.by_size_and_color {m : Type → Type} [Monad m] {H : Type}
    (deref : H → m Product) (items : List H) (size : Size) (color : Color) : m (List H) :=
  items.foldlM
    (fun result i => do
      let p ← deref i
      let b ← (if p.size = size then do
                  let q ← deref i
                  pure (decide (q.color = color))
                else pure false)
      if b then pure (result.concat i) else pure result)
    []

/-! ## Calls on raw pointers, with the memory as state -/

/-- The ways a call can end without a result. The source has no `throw` and no error return,
so the only way it has is the fault of the machine on a bad dereference;
`invalid_argument` is the error of the error taxonomy, which no function of the source
raises. -/
inductive Failure where
  | invalid_argument
  | fault
  deriving DecidableEq, Repr

/-- The dereference `item->...` as a step on the memory: it reads the memory it is run in and
faults on the null pointer and on an address that holds no object. -/
def Memory.read (item : Ptr) : StateT Memory (Except Failure) Product := do
  let mem ← get
  match mem.load item with
  | some x => pure x
  | none => throw Failure.fault

/-- The outcome, on the memory `mem`, of a call that leaves the memory as it found it:
its result together with `mem`, or the fault. -/
def Memory.outcome {α : Type} (mem : Memory) : Option α → Except Failure (α × Memory)
  | some a => Except.ok (a, mem)
  | none => Except.error Failure.fault

/-! ## Liskov substitution: `Rectangle` and `Square` -/

/-- The value of an `int` expression on the target: 32-bit two-complement wrap-around. -/
def int_wrap (x : Int) : Int := (x + 2 ^ 31) % 2 ^ 32 - 2 ^ 31

/-- The `int` product `a * b`. -/
def int_mul (a b : Int) : Int := int_wrap (a * b)

/-- The fields of the source's `class Rectangle { protected: int width, height; ... }`. -/
structure Rectangle where
  width : Int
  height : Int
  deriving DecidableEq, Repr

/-- The source's `Rectangle::get_width`. -/
def Rectangle.get_width (self : Rectangle) : Int := self.width

/-- The source's `Rectangle::get_height`. -/
def Rectangle.get_height (self : Rectangle) : Int := self.height

/-- The source's `Rectangle::set_width`: `this->width = width`. -/
def Rectangle.set_width (self : Rectangle) (width : Int) : Rectangle :=
  { self with width := width }

/-- The source's `Rectangle::set_height`: `this->height = height`. -/
def Rectangle.set_height (self : Rectangle) (height : Int) : Rectangle :=
  { self with height := height }

/-- The source's `Rectangle::area`: `width * height`. -/
def Rectangle.area (self : Rectangle) : Int := int_mul self.width self.height

/-- The source's `Square(int size) : Rectangle(size, size)`. -/
def Square.create (size : Int) : Rectangle := ⟨size, size⟩

/-- The source's `Square::set_width`: `this->width = height = width`. -/
def Square.set_width (self : Rectangle) (width : Int) : Rectangle :=
  let self := { self with height := width }
  { self with width := self.height }

/-- The source's `Square::set_height`: `this->height = width = height`. -/
def Square.set_height (self : Rectangle) (height : Int) : Rectangle :=
  let self := { self with width := height }
  { self with height := self.width }

/-- The dynamic type of the object behind a `Rectangle&`. -/
inductive Dynamic where
  | rectangle
  | square
  deriving DecidableEq, Repr

/-- The virtual call `r.set_height(height)`. -/
def Dynamic.set_height (dyn : Dynamic) (r : Rectangle) (height : Int) : Rectangle :=
  match dyn with
  | Dynamic.rectangle => Rectangle.set_height r height
  | Dynamic.square => Square.set_height r height

/-- The virtual call `r.set_width(width)`. -/
def Dynamic.set_width (dyn : Dynamic) (r : Rectangle) (width : Int) : Rectangle :=
  match dyn with
  | Dynamic.rectangle => Rectangle.set_width r width
  | Dynamic.square => Square.set_width r width

/-- The source's `process(Rectangle& r)`: `w = r.get_width(); r.set_height(10);` then it prints
`w * 10` as the expected area and `r.area()` as the area got. The result is the pair printed
(expected, got) and the object after the call. -/
def process (dyn : Dynamic) (r : Rectangle) : (Int × Int) × Rectangle :=
  let w := r.get_width
  let r := dyn.set_height r 10
  ((int_mul w 10, r.area), r)

/-! ## Dependency inversion: `Relationships` -/

/-- The source's `enum class Relationship { parent, child, sibling }`. -/
inductive Relationship where
  | parent
  | child
  | sibling
  deriving DecidableEq, Repr

/-- The source's `struct Person { string name; }`. -/
structure Person where
  name : String
  deriving DecidableEq, Repr

/-- The source's `struct Relationships` with its one member
`vector<tuple<Person, Relationship, Person>> relations`. -/
structure Relationships where
  relations : List (Person × Relationship × Person)
  deriving DecidableEq, Repr

/-- The source's `Relationships::add_parent_and_child(parent, child)`: two `push_back`s,
`{ parent, Relationship::parent, child }` then `{ child, Relationship::child, parent }`. -/
def Relationships.add_parent_and_child (self : Relationships) (parent child : Person) :
    Relationships :=
  let relations := self.relations.concat (parent, Relationship.parent, child)
  ⟨relations.concat (child, Relationship.child, parent)⟩

/-- The source's `Relationships::find_all_children_of(name)`: for each `[first, rel, second]`
of `relations` in order, `if (first.name == name && rel == Relationship::parent)
result.push_back(second)`. -/
def Relationships.find_all_children_of (self : Relationships) (name : String) : List Person :=
  self.relations.foldl
    (fun result entry =>
      if entry.1.name = name ∧ entry.2.1 = Relationship.parent
      then result.concat entry.2.2 else result)
    []

/-- A run of `add_parent_and_child(p_i, c_i)` calls, in order, on a `Relationships`. -/
def Relationships.add_all (self : Relationships) (calls : List (Person × Person)) :
    Relationships :=
  calls.foldl (fun r call => r.add_parent_and_child call.1 call.2) self

end Solid

/-! # The builders of `DesignPatternsCpp/Builder.cpp`

Output streams (`ostream`, `ostringstream`) are the string written so far; `<<` appends. -/

namespace Builder

/-- What `std::endl` writes: the end-of-line character. -/
def endl : String := "\n"

/-! ## The `Tag` language -/

/-- The source's `struct Tag { string name, text; vector<Tag> children;
vector<pair<string, string>> attributes; }`. -/
inductive Tag where
  | mk (name : String) (text : String) (children : List Tag)
      (attributes : List (String × String))

/-- Member `name` of a `Tag`. -/
def Tag.name : Tag → String
  | Tag.mk name _ _ _ => name

/-- Member `text` of a `Tag`. -/
def Tag.text : Tag → String
  | Tag.mk _ text _ _ => text

/-- Member `children` of a `Tag`. -/
def Tag.children : Tag → List Tag
  | Tag.mk _ _ children _ => children

/-- Member `attributes` of a `Tag`. -/
def Tag.attributes : Tag → List (String × String)
  | Tag.mk _ _ _ attributes => attributes

mutual
/-- The source's `operator<<(std::ostream& os, const Tag& tag)`: the stream after the tag is
written. It writes `<name`, each attribute as ` key="value"`, then `/>` and an end-of-line when
the tag has no children and no text, and otherwise `>`, an end-of-line, the text and an
end-of-line when there is text, every child, `</name>` and an end-of-line. -/
def Tag.stream : Tag → String → String
  | Tag.mk name text children attributes, os =>
    let os := os ++ "<" ++ name
    let os := attributes.foldl
      (fun os att => os ++ " " ++ att.1 ++ "=\"" ++ att.2 ++ "\"") os
    if children.length = 0 ∧ text.length = 0 then
      os ++ "/>" ++ endl
    else
      let os := os ++ ">" ++ endl
      let os := if text.length ≠ 0 then os ++ text ++ endl else os
      let os := Tag.stream_children children os
      os ++ "</" ++ name ++ ">" ++ endl
/-- The loop `for (const auto& child : tag.children) os << child`. -/
def Tag.stream_children : List Tag → String → String
  | [], os => os
  | child :: rest, os => Tag.stream_children rest (Tag.stream child os)
end

/-- The source's `Tag(const string &name, const string &text) : name(name), text(text)`. -/
def Tag.of_text (name text : String) : Tag := Tag.mk name text [] []

/-- The source's `Tag(const string &name, const vector<Tag> &childrean)
: name(name), children(children)`. The parameter is spelt `childrean`, so the initialiser
`children(children)` names the member itself: the member is initialised from its own content
before initialisation, here `indeterminate`, and the parameter is not used. -/
def Tag.of_children (indeterminate : List Tag) (name : String) (_childrean : List Tag) : Tag :=
  Tag.mk name "" indeterminate []

/-- The source's `explicit P(const string &text) : Tag("p", text)`. -/
def P.of_text (text : String) : Tag := Tag.of_text "p" text

/-- The source's `P(std::initializer_list<Tag> children) : Tag("p", children)`. -/
def P.of_children (indeterminate : List Tag) (children : List Tag) : Tag :=
  Tag.of_children indeterminate "p" children

/-- The source's `explicit IMG(const string& url) : Tag{ "img", "" }` with body
`attributes.emplace_back(make_pair("src", url))`. -/
def IMG.create (url : String) : Tag :=
  let tag := Tag.of_text "img" ""
  Tag.mk tag.name tag.text tag.children (tag.attributes.concat ("src", url))

/-! ## `HtmlElement` and `HtmlBuilder` -/

/-- The source's `struct HtmlElement { string name; string text;
vector<HtmlElement> elements; ... }`. -/
inductive HtmlElement where
  | mk (name : String) (text : String) (elements : List HtmlElement)

/-- Member `name` of an `HtmlElement`. -/
def HtmlElement.name : HtmlElement → String
  | HtmlElement.mk name _ _ => name

/-- Member `text` of an `HtmlElement`. -/
def HtmlElement.text : HtmlElement → String
  | HtmlElement.mk _ text _ => text

/-- Member `elements` of an `HtmlElement`. -/
def HtmlElement.elements : HtmlElement → List HtmlElement
  | HtmlElement.mk _ _ elements => elements

/-- The source's `const size_t indent_size = 2`. -/
def HtmlElement.indent_size : Nat := 2

/-- The source's `string(n, ' ')`: `n` spaces. -/
def spaces (n : Nat) : String := String.mk (List.replicate n ' ')

mutual
/-- The source's `HtmlElement::str(int indent)`: the content of `oss` at the end. -/
def HtmlElement.str : HtmlElement → Nat → String
  | HtmlElement.mk name text elements, indent =>
    let i := spaces (HtmlElement.indent_size * indent)
    let oss := ""
    let oss := oss ++ i ++ "<" ++ name ++ ">" ++ endl
    let oss := if text.length > 0
      then oss ++ spaces (HtmlElement.indent_size * (indent + 1)) ++ text ++ endl
      else oss
    let oss := HtmlElement.str_elements elements (indent + 1) oss
    oss ++ i ++ "</" ++ name ++ ">" ++ endl
/-- The loop `for (const auto& e : elements) oss << e.str(indent + 1)`, the children being
rendered at `indent`. -/
def HtmlElement.str_elements : List HtmlElement → Nat → String → String
  | [], _, oss => oss
  | e :: rest, indent, oss =>
    HtmlElement.str_elements rest indent (oss ++ HtmlElement.str e indent)
end

/-- The source's `class HtmlBuilder { HtmlElement root; ... }`. -/
structure HtmlBuilder where
  root : HtmlElement

/-- The source's `HtmlBuilder(string root_name) { root.name = root_name; }` on the
default-constructed `root` (empty name, empty text, no elements). -/
def HtmlBuilder.create (root_name : String) : HtmlBuilder :=
  let root := HtmlElement.mk "" "" []
  ⟨HtmlElement.mk root_name root.text root.elements⟩

/-- The builder objects alive, by address: a method runs on the object at address `this`. -/
abbrev Builders := List HtmlBuilder

/-- The source's `void HtmlBuilder::add_child(child_name, child_text)`:
`HtmlElement e{ child_name, child_text }; root.elements.emplace_back(e);`.
The result is the objects after the call. -/
def HtmlBuilder.add_child (objects : Builders) (this : Nat) (child_name child_text : String) :
    Option Builders := do
  let self ← objects.get? this
  let e := HtmlElement.mk child_name child_text []
  let root := HtmlElement.mk self.root.name self.root.text (self.root.elements.concat e)
  pure (objects.set this ⟨root⟩)

/-- The source's `HtmlBuilder& HtmlBuilder::add_child_fluent_ref(child_name, child_text)`:
the same two statements, then `return *this`. The result is the address of the object
returned and the objects after the call. -/
def HtmlBuilder.add_child_fluent_ref (objects : Builders) (this : Nat)
    (child_name child_text : String) : Option (Nat × Builders) := do
  let self ← objects.get? this
  let e := HtmlElement.mk child_name child_text []
  let root := HtmlElement.mk self.root.name self.root.text (self.root.elements.concat e)
  pure (this, objects.set this ⟨root⟩)

/-- The source's `HtmlBuilder* HtmlBuilder::add_child_fluent_ptr(child_name, child_text)`:
the same two statements, then `return this`. The result is the pointer returned and the
objects after the call. -/
def HtmlBuilder.add_child_fluent_ptr (objects : Builders) (this : Nat)
    (child_name child_text : String) : Option (Nat × Builders) := do
  let self ← objects.get? this
  let e := HtmlElement.mk child_name child_text []
  let root := HtmlElement.mk self.root.name self.root.text (self.root.elements.concat e)
  pure (this, objects.set this ⟨root⟩)

/-- The source's `string HtmlBuilder::str() { return root.str(); }` (`indent` defaults to 0). -/
def HtmlBuilder.str (objects : Builders) (this : Nat) : Option String := do
  let self ← objects.get? this
  pure (self.root.str 0)

end Builder

namespace Solid

/-! ## Lemmas on the filter loop -/

theorem BetterFilter.filter_eq_loop {m : Type → Type} [Monad m] {H : Type}
    (items : List H) (spec : Specification m H) :
    BetterFilter.filter items spec = BetterFilter.loop spec [] items := rfl

theorem BetterFilter.loop_pure {H : Type} (spec : Specification Id H) (items result : List H) :
    (BetterFilter.loop spec result items).run
      = result ++ items.filter (fun r => (spec.is_satisfied r).run) := by
  induction items generalizing result with
  | nil => simp [BetterFilter.loop, Id.run]
  | cons p ps ih =>
    have step : BetterFilter.loop spec result (p :: ps)
        = BetterFilter.loop spec
            (if (spec.is_satisfied p).run then result.concat p else result) ps := by
      unfold BetterFilter.loop
      rw [List.foldlM_cons]
      cases h : (spec.is_satisfied p).run <;> simp_all [Id.run]
    rw [step, ih]
    cases h : (spec.is_satisfied p).run <;> simp [List.filter_cons, h]

theorem BetterFilter.filter_pure {H : Type} (items : List H) (spec : Specification Id H) :
    (BetterFilter.filter items spec).run = items.filter (fun r => (spec.is_satisfied r).run) := by
  rw [BetterFilter.filter_eq_loop, BetterFilter.loop_pure]
  simp

/-- The loop with faulting calls: it returns exactly when every call on `items` returns, and
then appends to `result` the items whose call answered true, in order. -/
theorem BetterFilter.loop_faulting {H : Type} (spec : Specification Option H)
    (items result : List H) :
    BetterFilter.loop spec result items
      = if items.all (fun r => (spec.is_satisfied r).isSome) = true
        then some (result ++ items.filter (fun r => spec.is_satisfied r == some true))
        else none := by
  induction items generalizing result with
  | nil => simp [BetterFilter.loop]
  | cons p ps ih =>
    have step : BetterFilter.loop spec result (p :: ps)
        = (spec.is_satisfied p).bind
            (fun b => BetterFilter.loop spec (if b = true then result.concat p else result) ps) := by
      unfold BetterFilter.loop
      rw [List.foldlM_cons]
      cases h : spec.is_satisfied p with
      | none => rfl
      | some b => cases b <;> rfl
    rw [step]
    cases h : spec.is_satisfied p with
    | none => simp [h]
    | some b =>
      rw [Option.some_bind, ih]
      cases b <;> simp [h, List.filter_cons]

theorem BetterFilter.filter_faulting {H : Type} (items : List H)
    (spec : Specification Option H) :
    BetterFilter.filter items spec
      = if items.all (fun r => (spec.is_satisfied r).isSome) = true
        then some (items.filter (fun r => spec.is_satisfied r == some true))
        else none := by
  rw [BetterFilter.filter_eq_loop, BetterFilter.loop_faulting]
  simp

/-! ## Lemmas on the AND composite -/

theorem AndSpecification.is_satisfied_pure {H : Type} (first second : Specification Id H)
    (item : H) :
    ((AndSpecification first second).is_satisfied item).run
      = ((first.is_satisfied item).run && (second.is_satisfied item).run) := by
  unfold AndSpecification
  cases h : (first.is_satisfied item).run <;> simp_all [Id.run]

theorem AndSpecification.assoc {m : Type → Type} [Monad m] [LawfulMonad m] {H : Type}
    (a b c : Specification m H) :
    AndSpecification (AndSpecification a b) c = AndSpecification a (AndSpecification b c) := by
  unfold AndSpecification
  congr 1
  funext item
  simp only [bind_assoc]
  refine bind_congr ?_
  intro ba
  cases ba <;> simp

/-! ## Lemmas on the specifications the source can build -/

/-- A specification built from the classes of the source that accepts a red and a green record
of some name and size also accepts the blue record of that name and size. -/
theorem SpecTerm.accepts_blue_of_red_of_green (t : SpecTerm) (n : String) (s : Size)
    (hred : ((t.build by_value).is_satisfied ⟨n, Color.red, s⟩).run = true)
    (hgreen : ((t.build by_value).is_satisfied ⟨n, Color.green, s⟩).run = true) :
    ((t.build by_value).is_satisfied ⟨n, Color.blue, s⟩).run = true := by
  induction t with
  | color c =>
    cases c <;> simp_all [SpecTerm.build, ColorSpecification, by_value, Id.run]
  | size z =>
    simp_all [SpecTerm.build, SizeSpecification, by_value, Id.run]
  | and first second ih1 ih2 =>
    simp only [SpecTerm.build, AndSpecification.is_satisfied_pure, Bool.and_eq_true] at *
    exact ⟨ih1 hred.1 hgreen.1, ih2 hred.2 hgreen.2⟩

/-- With raw pointers, a specification built from the classes of the source faults exactly when
the pointer does not dereference, and otherwise answers as it does on the record itself. -/
theorem SpecTerm.build_load (mem : Memory) (t : SpecTerm) (p : Ptr) :
    (t.build mem.load).is_satisfied p
      = (mem.load p).map (fun x => ((t.build by_value).is_satisfied x).run) := by
  induction t with
  | color c =>
    cases h : mem.load p <;> simp [SpecTerm.build, ColorSpecification, by_value, Id.run, h]
  | size z =>
    cases h : mem.load p <;> simp [SpecTerm.build, SizeSpecification, by_value, Id.run, h]
  | and first second ih1 ih2 =>
    simp only [SpecTerm.build, AndSpecification.is_satisfied_pure]
    unfold AndSpecification
    simp only [ih1, ih2]
    cases h : mem.load p with
    | none => rfl
    | some x =>
      cases h1 : ((first.build by_value).is_satisfied x).run <;> simp [h1]

/-- Two specifications that answer every call alike are the same specification. -/
theorem Specification.eq_of_is_satisfied_eq {m : Type → Type} {H : Type}
    (x y : Specification m H) (h : ∀ r : H, x.is_satisfied r = y.is_satisfied r) : x = y := by
  cases x
  cases y
  congr
  funext r
  exact h r

/-- With raw pointers, the AND of two specifications built from the classes of the source does
not depend on the order of its operands, faults included. -/
theorem SpecTerm.and_comm_load (mem : Memory) (ta tb : SpecTerm) :
    AndSpecification (ta.build mem.load) (tb.build mem.load)
      = AndSpecification (tb.build mem.load) (ta.build mem.load) := by
  apply Specification.eq_of_is_satisfied_eq
  intro p
  unfold AndSpecification
  simp only [SpecTerm.build_load]
  cases h : mem.load p with
  | none => rfl
  | some x =>
    cases h1 : ((ta.build by_value).is_satisfied x).run <;>
      cases h2 : ((tb.build by_value).is_satisfied x).run <;> simp [h1, h2]

/-- With raw pointers, the AND of a specification built from the classes of the source with
itself is that specification, faults included. -/
theorem SpecTerm.and_self_load (mem : Memory) (t : SpecTerm) :
    AndSpecification (t.build mem.load) (t.build mem.load) = t.build mem.load := by
  apply Specification.eq_of_is_satisfied_eq
  intro p
  unfold AndSpecification
  simp only [SpecTerm.build_load]
  cases h : mem.load p with
  | none => rfl
  | some x =>
    cases h1 : ((t.build by_value).is_satisfied x).run <;> simp [h1]

/-! ## Lemmas on calls with the memory as state -/

theorem Memory.run_read (mem : Memory) (p : Ptr) :
    StateT.run (Memory.read p) mem = mem.outcome (mem.load p) := by
  unfold Memory.read
  cases h : mem.load p <;> simp [StateT.run_bind, h, Memory.outcome] <;> rfl

/-- A specification built from the classes of the source, run on the memory as state, answers
as it does on that memory read-only and leaves the memory as it found it. -/
theorem SpecTerm.run_build_read (mem : Memory) (t : SpecTerm) (p : Ptr) :
    StateT.run ((t.build Memory.read).is_satisfied p) mem
      = mem.outcome ((t.build mem.load).is_satisfied p) := by
  induction t with
  | color c =>
    simp only [SpecTerm.build, ColorSpecification, StateT.run_bind, Memory.run_read]
    cases h : mem.load p <;> simp [Memory.outcome]
  | size z =>
    simp only [SpecTerm.build, SizeSpecification, StateT.run_bind, Memory.run_read]
    cases h : mem.load p <;> simp [Memory.outcome]
  | and first second ih1 ih2 =>
    simp only [SpecTerm.build]
    unfold AndSpecification
    simp only [StateT.run_bind, ih1]
    cases h : (first.build mem.load).is_satisfied p with
    | none => rfl
    | some b =>
      cases b
      · rfl
      · exact ih2

/-- The filter loop on the memory as state: when the specification leaves the memory as it
found it, so does the loop, and it computes what the read-only loop computes. -/
theorem BetterFilter.run_loop (mem : Memory)
    (spec_state : Specification (StateT Memory (Except Failure)) Ptr)
    (spec_load : Specification Option Ptr)
    (h : ∀ p : Ptr, StateT.run (spec_state.is_satisfied p) mem
        = mem.outcome (spec_load.is_satisfied p))
    (items result : List Ptr) :
    StateT.run (BetterFilter.loop spec_state result items) mem
      = mem.outcome (BetterFilter.loop spec_load result items) := by
  induction items generalizing result with
  | nil => rfl
  | cons p ps ih =>
    unfold BetterFilter.loop
    rw [List.foldlM_cons, List.foldlM_cons, StateT.run_bind, StateT.run_bind, h p]
    cases hp : spec_load.is_satisfied p with
    | none => rfl
    | some b =>
      cases b
      · exact ih result
      · exact ih (result.concat p)

theorem BetterFilter.run_filter_build (mem : Memory) (t : SpecTerm) (items : List Ptr) :
    StateT.run (BetterFilter.filter items (t.build Memory.read)) mem
      = mem.outcome (BetterFilter.filter items (t.build mem.load)) := by
  rw [BetterFilter.filter_eq_loop, BetterFilter.filter_eq_loop]
  exact BetterFilter.run_loop mem _ _ (SpecTerm.run_build_read mem t) items []

/-! ## Lemmas on `int` and on `Relationships` -/

theorem int_wrap_of_in_range (x : Int) (hlo : -2 ^ 31 ≤ x) (hhi : x < 2 ^ 31) :
    int_wrap x = x := by
  unfold int_wrap
  omega

theorem int_between (k : Int) (h3 : k < 1) (h4 : -2 < k) : k = 0 ∨ k = -1 := by
  omega

/-- The `int` product `s * 10` is 100 for two sides only: 10, and `10 - 2^31` by wrap-around. -/
theorem int_mul_ten_eq_hundred (s : Int) (hlo : -2 ^ 31 ≤ s) (hhi : s < 2 ^ 31)
    (h : int_mul s 10 = 100) : s = 10 ∨ s = 10 - 2 ^ 31 := by
  unfold int_mul int_wrap at h
  have hdiv := Int.emod_add_ediv (s * 10 + 2 ^ 31) (2 ^ 32)
  generalize (s * 10 + 2 ^ 31) / 2 ^ 32 = q at hdiv
  have h5 : 5 * (s - 10) = 2 ^ 31 * q := by linarith
  have hcop : IsCoprime (2 ^ 31 : Int) 5 := by
    rw [Int.isCoprime_iff_gcd_eq_one]
    decide
  have hdvd : (2 ^ 31 : Int) ∣ s - 10 := hcop.dvd_of_dvd_mul_left ⟨q, h5⟩
  obtain ⟨k, hk⟩ := hdvd
  have hk2 : k = 0 ∨ k = -1 := by
    have h1 : (2 : Int) ^ 31 * k < 2 ^ 31 * 1 := by linarith
    have h2 : (2 : Int) ^ 31 * (-2) < 2 ^ 31 * k := by linarith
    have h3 : k < 1 := lt_of_mul_lt_mul_left h1 (by norm_num)
    have h4 : -2 < k := lt_of_mul_lt_mul_left h2 (by norm_num)
    exact int_between k h3 h4
  rcases hk2 with hk0 | hk1
  · left
    rw [hk0] at hk
    linarith
  · right
    rw [hk1] at hk
    linarith

theorem Relationships.find_loop (name : String) (relations : List (Person × Relationship × Person))
    (result : List Person) :
    relations.foldl
        (fun result entry =>
          if entry.1.name = name ∧ entry.2.1 = Relationship.parent
          then result.concat entry.2.2 else result)
        result
      = result ++ (relations.filter
          (fun entry => decide (entry.1.name = name ∧ entry.2.1 = Relationship.parent))).map
            (fun entry => entry.2.2) := by
  induction relations generalizing result with
  | nil => simp
  | cons e es ih =>
    rw [List.foldl_cons, ih]
    by_cases h : e.1.name = name ∧ e.2.1 = Relationship.parent
    · simp [List.filter_cons, h]
    · simp [List.filter_cons, h]

theorem Relationships.find_add (self : Relationships) (parent child : Person) (name : String) :
    (self.add_parent_and_child parent child).find_all_children_of name
      = self.find_all_children_of name ++ (if parent.name = name then [child] else []) := by
  unfold Relationships.find_all_children_of Relationships.add_parent_and_child
  simp only [Relationships.find_loop, List.concat_eq_append, List.filter_append, List.map_append,
    List.nil_append]
  by_cases h : parent.name = name <;> simp [List.filter_cons, h]

theorem Relationships.find_add_all (self : Relationships) (calls : List (Person × Person))
    (name : String) :
    (self.add_all calls).find_all_children_of name
      = self.find_all_children_of name
        ++ (calls.filter (fun call => decide (call.1.name = name))).map (fun call => call.2) := by
  induction calls generalizing self with
  | nil => simp [Relationships.add_all]
  | cons call rest ih =>
    have step : self.add_all (call :: rest)
        = (self.add_parent_and_child call.1 call.2).add_all rest := rfl
    rw [step, ih, Relationships.find_add]
    by_cases h : call.1.name = name <;> simp [List.filter_cons, h]

/-! ## Claims -/

/-- C1. For a side-effect-free specification over any handle type,
`BetterFilter::filter(items, spec)` is the list-filter of `items` by `spec.is_satisfied`: a
handle `r` occurs in the result exactly when it occurs in `items` and `spec.is_satisfied(r)` is
true, so nothing outside `items` is returned. When a call may fault (raw pointers), the filter
returns exactly when every call on `items` returns, and its result is again the list-filter of
`items` by the calls that answered true. -/
theorem C1_filter_exactly_the_satisfied :
    (∀ (H : Type) (items : List H) (spec : Specification Id H),
      (BetterFilter.filter items spec).run = items.filter (fun r => (spec.is_satisfied r).run)
      ∧ ∀ r : H, r ∈ (BetterFilter.filter items spec).run
          ↔ (r ∈ items ∧ (spec.is_satisfied r).run = true))
    ∧ (∀ (H : Type) (items : List H) (spec : Specification Option H),
      BetterFilter.filter items spec
        = if items.all (fun r => (spec.is_satisfied r).isSome) = true
          then some (items.filter (fun r => spec.is_satisfied r == some true))
          else none) := by
  constructor
  · intro H items spec
    refine ⟨BetterFilter.filter_pure items spec, ?_⟩
    intro r
    rw [BetterFilter.filter_pure, List.mem_filter]
  · intro H items spec
    exact BetterFilter.filter_faulting items spec

/-- C2. `BetterFilter::filter(items, spec)` is a subsequence of `items` (relative order kept),
it is never longer than `items`, and every handle occurs in it as often as in `items` when it
satisfies `spec` and not at all otherwise (nothing duplicated, nothing matching dropped). -/
theorem C2_filter_is_stable_subsequence {H : Type} [DecidableEq H] (items : List H)
    (spec : Specification Id H) :
    List.Sublist (BetterFilter.filter items spec).run items
    ∧ (BetterFilter.filter items spec).run.length ≤ items.length
    ∧ ∀ r : H, (BetterFilter.filter items spec).run.count r
        = if (spec.is_satisfied r).run = true then items.count r else 0 := by
  rw [BetterFilter.filter_pure]
  refine ⟨List.filter_sublist items, List.length_filter_le _ items, ?_⟩
  intro r
  by_cases h : (spec.is_satisfied r).run = true
  · rw [if_pos h]
    exact List.count_filter h
  · rw [if_neg h]
    apply List.count_eq_zero.mpr
    intro hmem
    exact h (List.mem_filter.mp hmem).2

/-- C3. `AndSpecification(first, second).is_satisfied(item)` is true exactly when both operands
are satisfied; and, with the state every call may read and write made explicit, `first` runs on
the incoming state, `second` runs on the state `first` left (so after it), and when `first`
answers false the call answers false in the state `first` left: `second` has not run. On
operands that append their name to a call log: a false `first` leaves the log `["first"]`, a
true `first` leaves `["first", "second"]`. -/
theorem C3_and_is_short_circuit_conjunction {H : Type} :
    (∀ (first second : Specification Id H) (item : H),
      ((AndSpecification first second).is_satisfied item).run = true
        ↔ ((first.is_satisfied item).run = true ∧ (second.is_satisfied item).run = true))
    ∧ (∀ (σ : Type) (first second : Specification (StateM σ) H) (item : H) (s : σ),
      Id.run (StateT.run ((AndSpecification first second).is_satisfied item) s)
        = if (Id.run (StateT.run (first.is_satisfied item) s)).1 = true
          then Id.run (StateT.run (second.is_satisfied item)
                (Id.run (StateT.run (first.is_satisfied item) s)).2)
          else (false, (Id.run (StateT.run (first.is_satisfied item) s)).2))
    ∧ (∀ (item : H) (answer : Bool),
      Id.run (StateT.run
          ((AndSpecification
              (⟨fun _ => modifyGet (fun log => (answer, log ++ ["first"]))⟩ :
                Specification (StateM (List String)) H)
              ⟨fun _ => modifyGet (fun log => (true, log ++ ["second"]))⟩).is_satisfied item)
          [])
        = if answer = true then (true, ["first", "second"]) else (false, ["first"])) := by
  refine ⟨?_, ?_, ?_⟩
  · intro first second item
    rw [AndSpecification.is_satisfied_pure, Bool.and_eq_true]
  · intro σ first second item s
    unfold AndSpecification
    simp only [StateT.run_bind, Id.run, Id.bind_eq]
    cases h : (StateT.run (first.is_satisfied item) s).1 <;> simp [h, StateT.run_pure]
  · intro item answer
    cases answer <;> rfl

/-- C4. AND composition is associative for every effect context: the two nestings answer
every `is_satisfied(r)` call alike (they are the same specification), hence
`BetterFilter::filter` returns the same result for both on every list. -/
theorem C4_and_is_associative {m : Type → Type} [Monad m] [LawfulMonad m] {H : Type}
    (a b c : Specification m H) :
    (∀ r : H, (AndSpecification (AndSpecification a b) c).is_satisfied r
        = (AndSpecification a (AndSpecification b c)).is_satisfied r)
    ∧ (∀ items : List H, BetterFilter.filter items (AndSpecification (AndSpecification a b) c)
        = BetterFilter.filter items (AndSpecification a (AndSpecification b c))) := by
  rw [AndSpecification.assoc]
  exact ⟨fun _ => rfl, fun _ => rfl⟩

/-- Witness of C4 on the demonstration store, with raw pointers (faulting dereference). -/
theorem C4_and_is_associative_witness :
    (AndSpecification
        (AndSpecification (ColorSpecification demo_memory.load Color.green)
          (SizeSpecification demo_memory.load Size.large))
        (ColorSpecification demo_memory.load Color.green)).is_satisfied (Ptr.addr 1)
      = (AndSpecification (ColorSpecification demo_memory.load Color.green)
          (AndSpecification (SizeSpecification demo_memory.load Size.large)
            (ColorSpecification demo_memory.load Color.green))).is_satisfied (Ptr.addr 1)
    ∧ BetterFilter.filter all
        (AndSpecification
          (AndSpecification (ColorSpecification demo_memory.load Color.green)
            (SizeSpecification demo_memory.load Size.large))
          (ColorSpecification demo_memory.load Color.green))
      = BetterFilter.filter all
        (AndSpecification (ColorSpecification demo_memory.load Color.green)
          (AndSpecification (SizeSpecification demo_memory.load Size.large)
            (ColorSpecification demo_memory.load Color.green))) :=
  ⟨(C4_and_is_associative (ColorSpecification demo_memory.load Color.green)
      (SizeSpecification demo_memory.load Size.large)
      (ColorSpecification demo_memory.load Color.green)).1 (Ptr.addr 1),
   (C4_and_is_associative (ColorSpecification demo_memory.load Color.green)
      (SizeSpecification demo_memory.load Size.large)
      (ColorSpecification demo_memory.load Color.green)).2 all⟩

/-- C5. AND composition is commutative: for side-effect-free specifications `a`, `b` over any
handle type, filtering by `And(a, b)` and by `And(b, a)` returns the same list; and for the
specifications built from the classes of the source over raw pointers the two filters agree on
every pointer list and memory, null and dangling pointers included. -/
theorem C5_and_is_commutative :
    (∀ (H : Type) (a b : Specification Id H) (items : List H),
      BetterFilter.filter items (AndSpecification a b)
        = BetterFilter.filter items (AndSpecification b a))
    ∧ (∀ (mem : Memory) (ta tb : SpecTerm) (items : List Ptr),
      BetterFilter.filter items (AndSpecification (ta.build mem.load) (tb.build mem.load))
        = BetterFilter.filter items
            (AndSpecification (tb.build mem.load) (ta.build mem.load))) := by
  constructor
  · intro H a b items
    show (BetterFilter.filter items (AndSpecification a b)).run
        = (BetterFilter.filter items (AndSpecification b a)).run
    rw [BetterFilter.filter_pure, BetterFilter.filter_pure]
    congr 1
    funext r
    rw [AndSpecification.is_satisfied_pure, AndSpecification.is_satisfied_pure, Bool.and_comm]
  · intro mem ta tb items
    rw [SpecTerm.and_comm_load]

/-- C6. AND composition is idempotent: for a side-effect-free specification `a` over any handle
type, filtering by `And(a, a)` returns the same list as filtering by `a`; and the same holds
for the specifications built from the classes of the source over raw pointers, on every pointer
list and memory. -/
theorem C6_and_is_idempotent :
    (∀ (H : Type) (a : Specification Id H) (items : List H),
      BetterFilter.filter items (AndSpecification a a) = BetterFilter.filter items a)
    ∧ (∀ (mem : Memory) (t : SpecTerm) (items : List Ptr),
      BetterFilter.filter items (AndSpecification (t.build mem.load) (t.build mem.load))
        = BetterFilter.filter items (t.build mem.load)) := by
  constructor
  · intro H a items
    show (BetterFilter.filter items (AndSpecification a a)).run
        = (BetterFilter.filter items a).run
    rw [BetterFilter.filter_pure, BetterFilter.filter_pure]
    congr 1
    funext r
    rw [AndSpecification.is_satisfied_pure, Bool.and_self]
  · intro mem t items
    rw [SpecTerm.and_self_load]

/-- C7. Filtering with a specification whose `is_satisfied` returns true for every record
returns the whole input list, in the original order. -/
theorem C7_filter_always_true_is_identity {H : Type} (items : List H)
    (spec : Specification Id H) (h : ∀ r : H, (spec.is_satisfied r).run = true) :
    (BetterFilter.filter items spec).run = items := by
  rw [BetterFilter.filter_pure]
  exact List.filter_eq_self.mpr (fun r _ => h r)

/-- Witness of C7: the always-true specification on the three products of the demonstration. -/
theorem C7_filter_always_true_is_identity_witness :
    (∀ r : Product, ((always_true : Specification Id Product).is_satisfied r).run = true)
    ∧ (BetterFilter.filter [apple, tree, house] always_true).run = [apple, tree, house] :=
  ⟨fun _ => rfl, C7_filter_always_true_is_identity [apple, tree, house] always_true (fun _ => rfl)⟩

/-- C8. Filtering the empty list returns the empty list, for every specification and in every
effect context (the specification is not called at all). -/
theorem C8_filter_empty {m : Type → Type} [Monad m] {H : Type} (spec : Specification m H) :
    BetterFilter.filter [] spec = pure [] := by
  unfold BetterFilter.filter
  exact List.foldlM_nil _ _

/-- C9. On the store `[Apple(green, small), Tree(green, large), House(blue, large)]`,
filtering `all = {&apple, &tree, &house}` by `ColorSpecification(green)` returns exactly
`[&apple, &tree]`, and by `green && large` exactly `[&tree]`; the demonstration prints the names
Apple and Tree for the first and Tree for the second. -/
theorem C9_demo_results :
    BetterFilter.filter all (ColorSpecification demo_memory.load Color.green)
      = some [Ptr.addr 0, Ptr.addr 1]
    ∧ BetterFilter.filter all
        ((ColorSpecification demo_memory.load Color.green).operator_and
          (SizeSpecification demo_memory.load Size.large))
      = some [Ptr.addr 1]
    ∧ demo_memory.load (Ptr.addr 0) = some apple
    ∧ demo_memory.load (Ptr.addr 1) = some tree
    ∧ open_closed_principle_demo
      = some ["Apple is green\n", "Tree is green\n", "Tree is green and large\n"] := by
  refine ⟨by decide, by decide, by decide, by decide, by decide⟩

/-- C10, as stated, fails on the code: no specification that can be built from the classes of
the source (`ColorSpecification`, `SizeSpecification`, `AndSpecification`) is satisfied by
exactly the records that `ColorSpecification(blue)` rejects, so there is no NOT combinator (and
no OR: the same records are the red-or-green ones). -/
theorem C10_no_not_combinator_counterexample :
    ¬ ∃ t : SpecTerm, ∀ r : Product,
        ((t.build by_value).is_satisfied r).run
          = !((ColorSpecification by_value Color.blue).is_satisfied r).run := by
  rintro ⟨t, h⟩
  have hred := h ⟨"", Color.red, Size.small⟩
  have hgreen := h ⟨"", Color.green, Size.small⟩
  have hblue := h ⟨"", Color.blue, Size.small⟩
  have hacc := SpecTerm.accepts_blue_of_red_of_green t "" Size.small
    (by rw [hred]; rfl) (by rw [hgreen]; rfl)
  rw [hacc] at hblue
  exact absurd hblue (by decide)

/-- C10, amended. The code offers only the AND combinator: every specification built from its
classes fails to be the negation of `ColorSpecification(blue)` on some record. For
caller-defined side-effect-free specifications that answer the negation of `a`, of `b` and of
`a or b`, the last one and `And(not a, not b)` answer alike on every record and filter every
list alike (De Morgan); and filtering the Apple/Tree/House store by a caller-defined
specification that negates the answer of `ColorSpecification(blue)` yields `[&apple, &tree]`. -/
theorem C10_de_morgan_for_caller_defined_negations {H : Type}
    (a b not_a not_b not_a_or_b : Specification Id H)
    (not_blue : Specification Option Ptr)
    (ha : ∀ r : H, (not_a.is_satisfied r).run = !(a.is_satisfied r).run)
    (hb : ∀ r : H, (not_b.is_satisfied r).run = !(b.is_satisfied r).run)
    (hab : ∀ r : H, (not_a_or_b.is_satisfied r).run
        = !((a.is_satisfied r).run || (b.is_satisfied r).run))
    (hblue : ∀ p : Ptr, not_blue.is_satisfied p
        = ((ColorSpecification demo_memory.load Color.blue).is_satisfied p).map (fun x => !x)) :
    (∀ t : SpecTerm, ∃ r : Product,
        ((t.build by_value).is_satisfied r).run
          ≠ !((ColorSpecification by_value Color.blue).is_satisfied r).run)
    ∧ (∀ r : H, (not_a_or_b.is_satisfied r).run
        = ((AndSpecification not_a not_b).is_satisfied r).run)
    ∧ (∀ items : List H, BetterFilter.filter items not_a_or_b
        = BetterFilter.filter items (AndSpecification not_a not_b))
    ∧ BetterFilter.filter all not_blue = some [Ptr.addr 0, Ptr.addr 1] := by
  have key : ∀ r : H, (not_a_or_b.is_satisfied r).run
      = ((AndSpecification not_a not_b).is_satisfied r).run := by
    intro r
    rw [AndSpecification.is_satisfied_pure, ha, hb, hab, Bool.not_or]
  refine ⟨?_, key, ?_, ?_⟩
  · intro t
    by_contra hno
    push_neg at hno
    have hacc := SpecTerm.accepts_blue_of_red_of_green t "" Size.small
      (by rw [hno]; rfl) (by rw [hno]; rfl)
    have hblue2 := hno ⟨"", Color.blue, Size.small⟩
    rw [hacc] at hblue2
    exact absurd hblue2 (by decide)
  · intro items
    show (BetterFilter.filter items not_a_or_b).run
        = (BetterFilter.filter items (AndSpecification not_a not_b)).run
    rw [BetterFilter.filter_pure, BetterFilter.filter_pure]
    congr 1
    funext r
    exact key r
  · have hspec : not_blue
        = ⟨fun p => ((ColorSpecification demo_memory.load Color.blue).is_satisfied p).map
            (fun x => !x)⟩ :=
      Specification.eq_of_is_satisfied_eq _ _ hblue
    rw [hspec]
    decide

/-- Witness of the amended C10: `a` is `ColorSpecification(blue)`, `b` is
`SizeSpecification(small)` on the records themselves, the negations are written by the caller
as new specifications, and the store is the one of the demonstration. -/
theorem C10_de_morgan_for_caller_defined_negations_witness :
    BetterFilter.filter [apple, tree, house]
        (⟨fun r => pure (!(decide (r.color = Color.blue) || decide (r.size = Size.small)))⟩ :
          Specification Id Product)
      = BetterFilter.filter [apple, tree, house]
        (AndSpecification ⟨fun r => pure (!decide (r.color = Color.blue))⟩
          ⟨fun r => pure (!decide (r.size = Size.small))⟩)
    ∧ BetterFilter.filter all
        ⟨fun p => (demo_memory.load p).map (fun x => !decide (x.color = Color.blue))⟩
      = some [Ptr.addr 0, Ptr.addr 1] :=
  have h := C10_de_morgan_for_caller_defined_negations
    (ColorSpecification by_value Color.blue) (SizeSpecification by_value Size.small)
    ⟨fun r => pure (!decide (r.color = Color.blue))⟩
    ⟨fun r => pure (!decide (r.size = Size.small))⟩
    ⟨fun r => pure (!(decide (r.color = Color.blue) || decide (r.size = Size.small)))⟩
    ⟨fun p => (demo_memory.load p).map (fun x => !decide (x.color = Color.blue))⟩
    (fun _ => rfl) (fun _ => rfl) (fun _ => rfl)
    (fun p => by cases h : demo_memory.load p <;> simp [ColorSpecification, h])
  ⟨h.2.2.1 [apple, tree, house], h.2.2.2⟩

/-- C11. The composite built by the operator `a && b` is `AndSpecification(a, b)`: the same
specification, answering every `is_satisfied(r)` call alike, with `a` as first (left) operand
and `b` as second: on operands that append their name to a call log, `a` is logged first and
`b` is logged only when `a` answered true. On the demonstration store `green && large` and
`AndSpecification(green, large)` both filter `all` to `[&tree]`. -/
theorem C11_operator_and_builds_the_and_specification {m : Type → Type} [Monad m] {H : Type}
    (a b : Specification m H) :
    a.operator_and b = AndSpecification a b
    ∧ (∀ r : H, (a.operator_and b).is_satisfied r = (AndSpecification a b).is_satisfied r)
    ∧ (∀ (item : H) (answer : Bool),
      Id.run (StateT.run
          ((Specification.operator_and
              (⟨fun _ => modifyGet (fun log => (answer, log ++ ["a"]))⟩ :
                Specification (StateM (List String)) H)
              ⟨fun _ => modifyGet (fun log => (true, log ++ ["b"]))⟩).is_satisfied item)
          [])
        = if answer = true then (true, ["a", "b"]) else (false, ["a"]))
    ∧ BetterFilter.filter all
        ((ColorSpecification demo_memory.load Color.green).operator_and
          (SizeSpecification demo_memory.load Size.large))
      = BetterFilter.filter all
        (AndSpecification (ColorSpecification demo_memory.load Color.green)
          (SizeSpecification demo_memory.load Size.large))
    ∧ BetterFilter.filter all
        (AndSpecification (ColorSpecification demo_memory.load Color.green)
          (SizeSpecification demo_memory.load Size.large))
      = some [Ptr.addr 1] := by
  refine ⟨rfl, fun _ => rfl, ?_, rfl, by decide⟩
  intro item answer
  cases answer <;> rfl

/-- C20. `ProductFilter` and `BetterFilter` agree, in every lawful effect context and for every
way of dereferencing: `by_color` is the filter by `ColorSpecification`, `by_size` the filter by
`SizeSpecification`, and `by_size_and_color` the filter by
`AndSpecification(SizeSpecification, ColorSpecification)`. -/
theorem C20_product_filter_agrees_with_better_filter {m : Type → Type} [Monad m]
    [LawfulMonad m] {H : Type} (deref : H → m Product) (items : List H) (c : Color) (s : Size) :
    ProductFilter.by_color deref items c = BetterFilter.filter items (ColorSpecification deref c)
    ∧ ProductFilter.by_size deref items s
      = BetterFilter.filter items (SizeSpecification deref s)
    ∧ ProductFilter.by_size_and_color deref items s c
      = BetterFilter.filter items
          (AndSpecification (SizeSpecification deref s) (ColorSpecification deref c)) := by
  refine ⟨?_, ?_, ?_⟩
  · unfold ProductFilter.by_color BetterFilter.filter ColorSpecification
    congr 1
    funext result i
    simp only [bind_assoc, pure_bind, decide_eq_true_eq]
  · unfold ProductFilter.by_size BetterFilter.filter SizeSpecification
    congr 1
    funext result i
    simp only [bind_assoc, pure_bind, decide_eq_true_eq]
  · unfold ProductFilter.by_size_and_color BetterFilter.filter AndSpecification
      SizeSpecification ColorSpecification
    congr 1
    funext result i
    simp only [bind_assoc, pure_bind, decide_eq_true_eq]

/-- Witness of C20 on the demonstration store, with raw pointers (faulting dereference). -/
theorem C20_product_filter_agrees_with_better_filter_witness :
    ProductFilter.by_color demo_memory.load all Color.green
      = BetterFilter.filter all (ColorSpecification demo_memory.load Color.green)
    ∧ ProductFilter.by_size demo_memory.load all Size.large
      = BetterFilter.filter all (SizeSpecification demo_memory.load Size.large)
    ∧ ProductFilter.by_size_and_color demo_memory.load all Size.large Color.green
      = BetterFilter.filter all
          (AndSpecification (SizeSpecification demo_memory.load Size.large)
            (ColorSpecification demo_memory.load Color.green)) :=
  C20_product_filter_agrees_with_better_filter demo_memory.load all Color.green Size.large

/-- C12, as stated, fails on the code: with a null handle in the list the filter reports no
`InvalidArgument` error; `ColorSpecification::is_satisfied` dereferences the null handle and
the call ends in the fault. -/
theorem C12_null_handle_is_dereferenced_counterexample :
    StateT.run
        (BetterFilter.filter [Ptr.addr 0, Ptr.null, Ptr.addr 1]
          (ColorSpecification Memory.read Color.green))
        demo_memory
      = Except.error Failure.fault
    ∧ StateT.run
        (BetterFilter.filter [Ptr.addr 0, Ptr.null, Ptr.addr 1]
          (ColorSpecification Memory.read Color.green))
        demo_memory
      ≠ Except.error Failure.invalid_argument := by
  have h : StateT.run
        (BetterFilter.filter [Ptr.addr 0, Ptr.null, Ptr.addr 1]
          (ColorSpecification Memory.read Color.green))
        demo_memory
      = Except.error Failure.fault := rfl
  refine ⟨h, ?_⟩
  rw [h]
  intro hne
  cases hne

/-- C12, amended. `BetterFilter::filter` makes no check of its handles: for the specifications
built from the classes of the source, on every memory and pointer list, the call faults as soon
as one handle of the list does not dereference (null included), and otherwise returns the
complete filtered list with the memory as it found it. No handle is silently skipped and no
partially filtered result is returned. -/
theorem C12_filter_faults_or_returns_the_complete_result (mem : Memory) (t : SpecTerm)
    (items : List Ptr) :
    StateT.run (BetterFilter.filter items (t.build Memory.read)) mem
      = if items.all (fun p => (mem.load p).isSome) = true
        then Except.ok
          (items.filter (fun p => (t.build mem.load).is_satisfied p == some true), mem)
        else Except.error Failure.fault := by
  rw [BetterFilter.run_filter_build, BetterFilter.filter_faulting]
  have hsome : (fun p => ((t.build mem.load).is_satisfied p).isSome)
      = (fun p => (mem.load p).isSome) := by
    funext p
    rw [SpecTerm.build_load]
    cases mem.load p <;> rfl
  rw [hsome]
  cases items.all (fun p => (mem.load p).isSome) <;> rfl

/-- C13. Run on the memory as state, `is_satisfied` of `ColorSpecification`, of
`SizeSpecification` and of every `AndSpecification` nest of them, and `BetterFilter::filter`
with such a specification, end either in the fault or with the memory they started from: every
record keeps its name, color and size. The list of handles is an argument passed by value; the
handles returned are a sub-list of it, so they are handles of the input records and no copy
of a record is made. -/
theorem C13_filter_and_is_satisfied_leave_the_input_unchanged (mem : Memory) (t : SpecTerm)
    (items : List Ptr) (item : Ptr) (color : Color) (size : Size) :
    (StateT.run ((ColorSpecification Memory.read color).is_satisfied item) mem
      = match mem.load item with
        | some x => Except.ok (decide (x.color = color), mem)
        | none => Except.error Failure.fault)
    ∧ (StateT.run ((SizeSpecification Memory.read size).is_satisfied item) mem
      = match mem.load item with
        | some x => Except.ok (decide (x.size = size), mem)
        | none => Except.error Failure.fault)
    ∧ (StateT.run ((t.build Memory.read).is_satisfied item) mem
      = match (t.build mem.load).is_satisfied item with
        | some answer => Except.ok (answer, mem)
        | none => Except.error Failure.fault)
    ∧ (StateT.run (BetterFilter.filter items (t.build Memory.read)) mem
      = match BetterFilter.filter items (t.build mem.load) with
        | some result => Except.ok (result, mem)
        | none => Except.error Failure.fault)
    ∧ (match BetterFilter.filter items (t.build mem.load) with
        | some result => List.Sublist result items
        | none => True) := by
  refine ⟨?_, ?_, ?_, ?_, ?_⟩
  · have h := SpecTerm.run_build_read mem (SpecTerm.color color) item
    simp only [SpecTerm.build] at h
    rw [h]
    cases hl : mem.load item <;> simp [ColorSpecification, Memory.outcome, hl]
  · have h := SpecTerm.run_build_read mem (SpecTerm.size size) item
    simp only [SpecTerm.build] at h
    rw [h]
    cases hl : mem.load item <;> simp [SizeSpecification, Memory.outcome, hl]
  · rw [SpecTerm.run_build_read]
    cases (t.build mem.load).is_satisfied item <;> rfl
  · rw [BetterFilter.run_filter_build]
    cases BetterFilter.filter items (t.build mem.load) <;> rfl
  · rw [BetterFilter.filter_faulting]
    cases items.all (fun r => ((t.build mem.load).is_satisfied r).isSome)
    · simp
    · simp only [if_true]
      exact List.filter_sublist items

/-- C16. For a plain `Rectangle`, `set_height` leaves the width and `set_width` leaves the
height as they were; after `set_height(10)` the area is the `int` product `w * 10`, which is the
value `process` prints as the expected area (so `process` prints twice the same number and
leaves a `w` by 10 rectangle), and it is the exact product whenever that fits an `int`. -/
theorem C16_rectangle_setters_are_independent (r : Rectangle) (h w2 : Int) :
    (r.set_height h).get_width = r.get_width
    ∧ (r.set_width w2).get_height = r.get_height
    ∧ (r.set_height 10).area = int_mul r.get_width 10
    ∧ process Dynamic.rectangle r
      = ((int_mul r.get_width 10, int_mul r.get_width 10), ⟨r.get_width, 10⟩)
    ∧ ((r.set_height 10).area = r.get_width * 10
        ∨ r.get_width * 10 < -2 ^ 31 ∨ 2 ^ 31 ≤ r.get_width * 10) := by
  refine ⟨rfl, rfl, rfl, rfl, ?_⟩
  by_cases hlo : -2 ^ 31 ≤ r.get_width * 10
  · by_cases hhi : r.get_width * 10 < 2 ^ 31
    · left
      exact int_wrap_of_in_range _ hlo hhi
    · right
      right
      omega
  · right
    left
    omega

/-- C17, as stated, fails on the code for one side: for the `Square` of side `10 - 2^31`
(the `int` -2147483638, which is not 10) the `int` product `s * 10` wraps to 100, so `process`
prints an expected area of 100 and an area got of 100: they do not differ. -/
theorem C17_square_of_wrapping_side_counterexample :
    (10 - 2 ^ 31 : Int) ≠ 10
    ∧ (-2 ^ 31 : Int) ≤ 10 - 2 ^ 31
    ∧ (10 - 2 ^ 31 : Int) < 2 ^ 31
    ∧ (process Dynamic.square (Square.create (10 - 2 ^ 31))).1 = (100, 100) := by
  refine ⟨by decide, by decide, by decide, by decide⟩

/-- C17, amended. `Square` breaks the setter contract of `Rectangle` that `process` relies on:
for a `Square` of side `s`, `set_height(10)` also sets the width to 10, so the area afterwards
is 100; it differs from the expected `int` product `s * 10` for every `int` `s` other than 10
and `10 - 2^31` (the one other side whose product wraps to 100). -/
theorem C17_square_breaks_the_setter_contract (s : Int) (hlo : -2 ^ 31 ≤ s) (hhi : s < 2 ^ 31)
    (h10 : s ≠ 10) (hwrap : s ≠ 10 - 2 ^ 31) :
    (Dynamic.square.set_height (Square.create s) 10).get_width = 10
    ∧ (Dynamic.square.set_height (Square.create s) 10).area = 100
    ∧ (process Dynamic.square (Square.create s)).1 = (int_mul s 10, 100)
    ∧ int_mul s 10 ≠ 100 := by
  have hset : Dynamic.square.set_height (Square.create s) 10 = ⟨10, 10⟩ := rfl
  have harea : Rectangle.area ⟨10, 10⟩ = 100 := by decide
  refine ⟨?_, ?_, ?_, ?_⟩
  · rw [hset]
    rfl
  · rw [hset, harea]
  · have hproc : process Dynamic.square (Square.create s)
        = ((int_mul (Square.create s).get_width 10,
            (Dynamic.square.set_height (Square.create s) 10).area),
           Dynamic.square.set_height (Square.create s) 10) := rfl
    rw [hproc, hset, harea]
    rfl
  · intro h
    rcases int_mul_ten_eq_hundred s hlo hhi h with h1 | h2
    · exact h10 h1
    · exact hwrap h2

/-- Witness of the amended C17: `Square{5}` as in the demonstration, expected 50, got 100. -/
theorem C17_square_breaks_the_setter_contract_witness :
    (process Dynamic.square (Square.create 5)).1 = (50, 100) ∧ (50 : Int) ≠ 100 :=
  have h := C17_square_breaks_the_setter_contract 5 (by decide) (by decide) (by decide)
    (by decide)
  ⟨h.2.2.1.trans (by decide), by decide⟩

/-- C18. After any run of `add_parent_and_child(p_i, c_i)` calls on an empty `Relationships`,
`find_all_children_of(n)` is the list of the `c_i` of the calls whose `p_i` has name `n`, in
call order, one entry per call; so it is empty unless some call has a parent named `n`: being
recorded as a child makes nobody a child of that child. John with Chris then Mat gives
`[Chris, Mat]` for John and nothing for Chris and for Mat. -/
theorem C18_find_all_children_of_lists_the_children_in_call_order
    (calls : List (Person × Person)) (n : String) :
    ((Relationships.mk []).add_all calls).find_all_children_of n
      = (calls.filter (fun call => decide (call.1.name = n))).map (fun call => call.2)
    ∧ (((Relationships.mk []).add_all calls).find_all_children_of n = []
        ∨ ∃ call ∈ calls, call.1.name = n)
    ∧ ((Relationships.mk []).add_all
          [(Person.mk "John", Person.mk "Chris"), (Person.mk "John", Person.mk "Mat")]
        ).find_all_children_of "John" = [Person.mk "Chris", Person.mk "Mat"]
    ∧ ((Relationships.mk []).add_all
          [(Person.mk "John", Person.mk "Chris"), (Person.mk "John", Person.mk "Mat")]
        ).find_all_children_of "Chris" = []
    ∧ ((Relationships.mk []).add_all
          [(Person.mk "John", Person.mk "Chris"), (Person.mk "John", Person.mk "Mat")]
        ).find_all_children_of "Mat" = [] := by
  have main : ((Relationships.mk []).add_all calls).find_all_children_of n
      = (calls.filter (fun call => decide (call.1.name = n))).map (fun call => call.2) := by
    rw [Relationships.find_add_all]
    rfl
  refine ⟨main, ?_, by decide, by decide, by decide⟩
  rw [main]
  by_cases hex : ∃ call ∈ calls, call.1.name = n
  · exact Or.inr hex
  · left
    push_neg at hex
    rw [List.map_eq_nil_iff, List.filter_eq_nil_iff]
    intro call hcall
    simpa using hex call hcall

end Solid

namespace Builder

/-! ## Lemmas on strings and on the rendering loops -/

theorem foldl_append_eq (l : List String) (acc : String) :
    l.foldl (fun r s => r ++ s) acc = acc ++ String.join l := by
  induction l generalizing acc with
  | nil => simp [String.join]
  | cons x xs ih =>
    rw [List.foldl_cons, ih]
    have hjoin : String.join (x :: xs) = x ++ String.join xs := by
      show List.foldl (fun r s => r ++ s) "" (x :: xs) = x ++ String.join xs
      rw [List.foldl_cons, ih ("" ++ x)]
      simp
    rw [hjoin, String.append_assoc]

theorem join_cons (x : String) (xs : List String) :
    String.join (x :: xs) = x ++ String.join xs := by
  show List.foldl (fun r s => r ++ s) "" (x :: xs) = x ++ String.join xs
  rw [List.foldl_cons, foldl_append_eq]
  simp

theorem length_pos_iff_ne_empty (text : String) : text.length > 0 ↔ text ≠ "" := by
  constructor
  · intro h heq
    rw [heq] at h
    exact absurd h (by decide)
  · intro h
    cases text with
    | mk data =>
      cases data with
      | nil => exact absurd rfl h
      | cons c cs => simp [String.length]

/-- The children loop of `str` appends the renderings of the children, in order. -/
theorem HtmlElement.str_elements_eq (elements : List HtmlElement) (indent : Nat)
    (oss : String) :
    HtmlElement.str_elements elements indent oss
      = oss ++ String.join (elements.map (fun e => e.str indent)) := by
  induction elements generalizing oss with
  | nil => simp [HtmlElement.str_elements, String.join]
  | cons e rest ih =>
    rw [HtmlElement.str_elements, ih, List.map_cons, join_cons, String.append_assoc]

/-! ## Claims on the builders -/

/-- C19. `HtmlElement::str(indent)` is: `2 * indent` spaces, `<name>` and an end-of-line; then,
only when the text is non-empty, `2 * (indent + 1)` spaces, the text and an end-of-line; then
`str(indent + 1)` of every child in insertion order; then `2 * indent` spaces, `</name>` and an
end-of-line. For the builder `ul` with children `(li, hello)` and `(li, world)`, `str()` is the
eight lines of the claim. -/
theorem C19_str_renders_indented_lines (name text : String) (elements : List HtmlElement)
    (indent : Nat) :
    (HtmlElement.mk name text elements).str indent
      = spaces (2 * indent) ++ "<" ++ name ++ ">" ++ "\n"
        ++ (if text = "" then "" else spaces (2 * (indent + 1)) ++ text ++ "\n")
        ++ String.join (elements.map (fun e => e.str (indent + 1)))
        ++ spaces (2 * indent) ++ "</" ++ name ++ ">" ++ "\n"
    ∧ ((HtmlBuilder.add_child [HtmlBuilder.create "ul"] 0 "li" "hello").bind
          (fun objects => HtmlBuilder.add_child objects 0 "li" "world")).bind
        (fun objects => HtmlBuilder.str objects 0)
      = some "<ul>\n  <li>\n    hello\n  </li>\n  <li>\n    world\n  </li>\n</ul>\n" := by
  constructor
  · rw [HtmlElement.str]
    simp only [HtmlElement.str_elements_eq, HtmlElement.indent_size, endl]
    by_cases h : text = ""
    · have hlen : ¬ text.length > 0 := fun hpos => (length_pos_iff_ne_empty text).mp hpos h
      rw [if_neg hlen, if_pos h]
      simp only [String.append_assoc, String.empty_append, String.append_empty]
    · have hlen : text.length > 0 := (length_pos_iff_ne_empty text).mpr h
      rw [if_pos hlen, if_neg h]
      simp only [String.append_assoc, String.empty_append]
  · decide

/-- C14. The three insertion methods of `HtmlBuilder` are interchangeable: run on the builder
at address `this` they leave the same objects, namely that builder with one more child, a
childless element of the given name and text placed after the previous children, and every
other object as it was; so `str()` afterwards returns the same string; the fluent variants
return `this`, the builder they were called on. On the demonstration, two plain calls and two
chained fluent calls (by reference, by pointer) all give the `ul` of two `li`. -/
theorem C14_insertion_methods_are_interchangeable (objects : Builders) (this : Nat)
    (n t : String) :
    HtmlBuilder.add_child objects this n t
      = (objects.get? this).map (fun self =>
          objects.set this
            ⟨HtmlElement.mk self.root.name self.root.text
              (self.root.elements ++ [HtmlElement.mk n t []])⟩)
    ∧ HtmlBuilder.add_child_fluent_ref objects this n t
      = (HtmlBuilder.add_child objects this n t).map (fun after => (this, after))
    ∧ HtmlBuilder.add_child_fluent_ptr objects this n t
      = (HtmlBuilder.add_child objects this n t).map (fun after => (this, after))
    ∧ (HtmlBuilder.add_child_fluent_ref objects this n t).bind
          (fun r => HtmlBuilder.str r.2 r.1)
      = (HtmlBuilder.add_child objects this n t).bind (fun after => HtmlBuilder.str after this)
    ∧ (HtmlBuilder.add_child_fluent_ptr objects this n t).bind
          (fun r => HtmlBuilder.str r.2 r.1)
      = (HtmlBuilder.add_child objects this n t).bind (fun after => HtmlBuilder.str after this)
    ∧ ((HtmlBuilder.add_child_fluent_ref [HtmlBuilder.create "ul"] 0 "li" "hello").bind
          (fun r => HtmlBuilder.add_child_fluent_ref r.2 r.1 "li" "world")).bind
        (fun r => HtmlBuilder.str r.2 r.1)
      = some "<ul>\n  <li>\n    hello\n  </li>\n  <li>\n    world\n  </li>\n</ul>\n"
    ∧ ((HtmlBuilder.add_child_fluent_ptr [HtmlBuilder.create "ul"] 0 "li" "hello").bind
          (fun r => HtmlBuilder.add_child_fluent_ptr r.2 r.1 "li" "world")).bind
        (fun r => HtmlBuilder.str r.2 r.1)
      = ((HtmlBuilder.add_child [HtmlBuilder.create "ul"] 0 "li" "hello").bind
          (fun after => HtmlBuilder.add_child after 0 "li" "world")).bind
        (fun after => HtmlBuilder.str after 0) := by
  have href : HtmlBuilder.add_child_fluent_ref objects this n t
      = (HtmlBuilder.add_child objects this n t).map (fun after => (this, after)) := by
    unfold HtmlBuilder.add_child_fluent_ref HtmlBuilder.add_child
    cases objects.get? this <;> rfl
  have hptr : HtmlBuilder.add_child_fluent_ptr objects this n t
      = (HtmlBuilder.add_child objects this n t).map (fun after => (this, after)) := by
    unfold HtmlBuilder.add_child_fluent_ptr HtmlBuilder.add_child
    cases objects.get? this <;> rfl
  refine ⟨?_, href, hptr, ?_, ?_, by decide, by decide⟩
  · unfold HtmlBuilder.add_child
    cases objects.get? this <;> simp [List.concat_eq_append]
  · rw [href]
    cases HtmlBuilder.add_child objects this n t <;> rfl
  · rw [hptr]
    cases HtmlBuilder.add_child objects this n t <;> rfl

/-- C15, the code at the failing input. The constructor `Tag(name, childrean)` does not use its
parameter: whatever child list is passed to `P`, the tag built is the one built from no
children at all, its `children` being the indeterminate content of the member. With that
content empty, streaming `P{IMG{u}}` writes the childless `<p/>` line, not the three lines of the
claim. The stream operator itself is as the claim says: on a `p` tag that does hold the `img`
child it writes the opening tag, the child, and the closing tag. -/
theorem C15_p_drops_its_children (u : String) :
    (∀ (indeterminate children : List Tag),
      P.of_children indeterminate children = P.of_children indeterminate [])
    ∧ Tag.stream (P.of_children [] [IMG.create u]) "" = "<p/>\n"
    ∧ Tag.stream (P.of_children [] [IMG.create u]) ""
        ≠ "<p>\n<img src=\"" ++ u ++ "\"/>\n</p>\n"
    ∧ Tag.stream (Tag.mk "p" "" [IMG.create u] []) ""
        = "<p>\n<img src=\"" ++ u ++ "\"/>\n</p>\n"
    ∧ Tag.stream (P.of_children [] [IMG.create "http://pokemon.com/pikachu.png"]) ""
        = "<p/>\n" := by
  have hdrop : Tag.stream (P.of_children [] [IMG.create u]) "" = "<p/>\n" := by
    show Tag.stream (Tag.mk "p" "" [] []) "" = "<p/>\n"
    decide
  refine ⟨fun _ _ => rfl, hdrop, ?_, ?_, by decide⟩
  · rw [hdrop]
    intro h
    have hlen := congrArg String.length h
    simp only [String.length_append] at hlen
    have h1 : "<p/>\n".length = 5 := by decide
    have h2 : "<p>\n<img src=\"".length = 14 := by decide
    have h3 : "\"/>\n</p>\n".length = 9 := by decide
    omega
  · have hlit : "<p>\n<img" ++ " " ++ "src" ++ "=\"" = "<p>\n<img src=\"" := by decide
    simp [Tag.stream, Tag.stream_children, IMG.create, Tag.of_text, Tag.name, Tag.text,
      Tag.children, Tag.attributes, endl, String.append_assoc]
    rw [← hlit]
    simp only [String.append_assoc]

end Builder
